import Mathlib

/-!
Verification development for the booknet dual-store CRUD backend.

The repository persists entities in a document store (MongoDB), mirrors
graph-participating entities into a graph store (Neo4j), and serves reads
through a Redis cache-aside layer.  This file gives a shallow embedding of
the data model (`src/model/metadata_model.rs`, `author_model.rs`,
`language_model.rs`), the dual-store write coordinators
(`src/repository/metadata_repository.rs`, `author_repository.rs`,
`language_repository.rs`) and the cache-aside entity service
(`src/service/metadata_service.rs`), and proves or refutes the stated
properties of the coordination protocol.

Stores are modelled as association lists keyed by the document identifier,
graph stores as lists of nodes, and every fallible external call takes an
injected fault flag.  Each operation returns the Rust function's result,
the post-state of the stores, and the ordered list of external calls it
made (its event trace), so that ordering and no-touch properties are
statable.  `unreachable!()` and `Option::unwrap` panics are modelled by a
distinguished `panicked` outcome.
-/

set_option autoImplicit false

/-- Lookup in an association list: first value bound to key `k`. -/
def alookup {α : Type} (k : String) : List (String × α) → Option α
  | [] => none
  | (k', v) :: rest => if k' = k then some v else alookup k rest

/-- Remove every binding of key `k` (document ids are unique, so this
matches `delete_one` on the entity-of-record collection). -/
def aremove {α : Type} (k : String) : List (String × α) → List (String × α)
  | [] => []
  | (k', v) :: rest =>
    if k' = k then aremove k rest else (k', v) :: aremove k rest

/-- Replace the value bound to key `k` (models `update_one`/`replace_one`
on a collection whose `_id` is unique). -/
def areplace {α : Type} (k : String) (v : α) : List (String × α) → List (String × α)
  | [] => []
  | (k', v') :: rest =>
    if k' = k then (k', v) :: areplace k v rest else (k', v') :: areplace k v rest

/-- Overwriting set, as Redis `SET`: drop any old binding, append the new one. -/
def aset {α : Type} (l : List (String × α)) (k : String) (v : α) : List (String × α) :=
  aremove k l ++ [(k, v)]

/-- Entity kinds stored in the single `metadata` collection
(`model/metadata_model.rs`, `enum Metadata`). -/
inductive Metadata : Type
  | Source (name website : String)
  | Language (code name : String)
  | Genre (name description : String)
deriving DecidableEq, Repr

/-- Keys for metadata entities (`model/metadata_model.rs`, `enum MetadataKey`). -/
inductive MetadataKey : Type
  | Source (name : String)
  | Language (code : String)
  | Genre (name : String)
deriving DecidableEq, Repr

namespace Metadata

/-- Per-kind graph-participation policy (`Metadata::save_in_noe4j`):
only `Genre` is mirrored into Neo4j. -/
def save_in_noe4j : Metadata → Bool
  | .Source _ _ => false
  | .Language _ _ => false
  | .Genre _ _ => true

/-- `Metadata::key`. -/
def key : Metadata → String
  | .Source name _ => name
  | .Genre name _ => name
  | .Language code _ => code

/-- `Metadata::kind`. -/
def kind : Metadata → String
  | .Source _ _ => "source"
  | .Language _ _ => "language"
  | .Genre _ _ => "genre"

/-- `Metadata::mongo_id`: the document identifier `"kind:key"`. -/
def mongo_id (m : Metadata) : String :=
  m.kind ++ ":" ++ m.key

/-- `Metadata::id_from`. -/
def id_from (kind key : String) : String :=
  kind ++ ":" ++ key

end Metadata

/-- The document persisted in the `metadata` collection
(`model/metadata_model.rs`, `struct MetadataDoc`). -/
structure MetadataDoc : Type where
  id : String
  key : String
  meta : Metadata
deriving DecidableEq, Repr

/-- `Metadata::to_doc`. -/
def Metadata.to_doc (m : Metadata) : MetadataDoc :=
  { id := m.mongo_id, key := m.key, meta := m }

namespace MetadataKey

/-- `MetadataKey::save_in_noe4j`. -/
def save_in_noe4j : MetadataKey → Bool
  | .Source _ => false
  | .Language _ => false
  | .Genre _ => true

/-- `MetadataKey::kind`. -/
def kind : MetadataKey → String
  | .Source _ => "source"
  | .Language _ => "language"
  | .Genre _ => "genre"

/-- `MetadataKey::key`. -/
def key : MetadataKey → String
  | .Source name => name
  | .Genre name => name
  | .Language code => code

/-- `MetadataKey::mongo_id`. -/
def mongo_id (k : MetadataKey) : String :=
  k.kind ++ ":" ++ k.key

end MetadataKey

/-- The Cypher mutations the metadata repository builds
(`repository/metadata_repository.rs`, `impl Metadata`/`impl MetadataKey`).
Each constructor carries the query parameters. -/
inductive GQuery : Type
  | createGenre (name description : String)
  | updateGenreCount (name description : String)
  | deleteGenre (name : String)
  | deleteGenreCount (name : String)
deriving DecidableEq, Repr

/-- `Metadata::neo4j_create_query`; `none` models the `unreachable!()`
panic on the non-`Genre` arms. -/
def Metadata.neo4j_create_query : Metadata → Option GQuery
  | .Genre name description => some (.createGenre name description)
  | _ => none

/-- `Metadata::neo4j_update_query_with_count`; `none` models the
`unreachable!()` panic on the non-`Genre` arms. -/
def Metadata.neo4j_update_query_with_count : Metadata → Option GQuery
  | .Genre name description => some (.updateGenreCount name description)
  | _ => none

/-- `Metadata::neo4j_delete_query`; `none` models `unreachable!()`. -/
def Metadata.neo4j_delete_query : Metadata → Option GQuery
  | .Genre name _ => some (.deleteGenre name)
  | _ => none

/-- `MetadataKey::neo4j_delete_query_with_count`; `none` models
`unreachable!()`. -/
def MetadataKey.neo4j_delete_query_with_count : MetadataKey → Option GQuery
  | .Genre name => some (.deleteGenreCount name)
  | _ => none

/-- The `$set` update document built by `MetadataRepository::update`:
one field per kind (`website`, `name`, `description`). -/
inductive SetDoc : Type
  | setWebsite (website : String)
  | setName (name : String)
  | setDescription (description : String)
deriving DecidableEq, Repr

/-- The `match &metadata` that builds the update document in
`MetadataRepository::update` (the source also has a `Publisher` arm, but
the `Metadata` enum in `model/metadata_model.rs` has no such variant). -/
def Metadata.update_doc : Metadata → SetDoc
  | .Source _ website => .setWebsite website
  | .Language _ name => .setName name
  | .Genre _ description => .setDescription description

/-- Effect of applying a `$set` document to the flattened `meta` part of a
stored `MetadataDoc`; a `$set` for a field the variant does not carry
leaves the typed view unchanged. -/
def applySetMeta (m : Metadata) : SetDoc → Metadata
  | .setWebsite w => match m with
    | .Source n _ => .Source n w
    | other => other
  | .setName nm => match m with
    | .Language c _ => .Language c nm
    | other => other
  | .setDescription d => match m with
    | .Genre n _ => .Genre n d
    | other => other

/-- The Genre sub-graph: one entry per `(:Genre)` node, as
`(name, description)`.  `CREATE` can produce duplicate names, so this is a
list, not a map. -/
abbrev GenreGraph := List (String × String)

/-- Effect of committing a staged metadata graph mutation. -/
def applyG (g : GenreGraph) : GQuery → GenreGraph
  | .createGenre n d => g ++ [(n, d)]
  | .updateGenreCount n d => g.map fun p => if p.1 = n then (n, d) else p
  | .deleteGenre n => g.filter fun p => p.1 ≠ n
  | .deleteGenreCount n => g.filter fun p => p.1 ≠ n

/-- The count returned by the count-returning run variants
(`shared/repository/repository_utils.rs`, `neo4j_count`): the number of
nodes the `MATCH` touched; `0` when the result stream is empty. -/
def gcount (g : GenreGraph) : GQuery → Nat
  | .updateGenreCount n _ => (g.filter fun p => p.1 = n).length
  | .deleteGenreCount n => (g.filter fun p => p.1 = n).length
  | _ => 0

/-- One external call made by a coordinator, in program order.  A call is
recorded whether it succeeds or fails; nothing is recorded for a handle
that is merely dropped. -/
inductive Event : Type
  | neoStartTxn | neoRun | neoCommit | neoRollback
  | mongoStartSession | mongoStartTxn | mongoRead | mongoStage
  | mongoCommit | mongoAbort | mongoDirect
  | cacheGet | cacheSet | cacheDel
deriving DecidableEq, Repr

/-- Error kinds a coordinator call can surface (collapsing the distinct
`anyhow`/store error payloads to their origin). -/
inductive RErr : Type
  | neoStart | neoRun | neoCommit
  | mongoStartSession | mongoStartTxn | mongoWrite | mongoRead | mongoCommit
  | neoNotFound (id : String)
  | mongoNotFound (id : String)
  | cache
deriving DecidableEq, Repr

/-- Result of a repository or service call: `Ok`, `Err`, or a Rust panic. -/
inductive RES (α : Type) : Type
  | ok (a : α)
  | err (e : RErr)
  | panicked
deriving DecidableEq, Repr

/-- A cached value: a single-entity snapshot or a list snapshot. -/
inductive CacheVal : Type
  | item (m : Metadata)
  | list (l : List Metadata)
deriving DecidableEq, Repr

/-- Combined state of the three stores for the metadata entity family:
the `metadata` collection (keyed by `_id`), the `(:Genre)` sub-graph, and
the Redis keyspace. -/
structure MWorld : Type where
  docs : List (String × MetadataDoc)
  graph : GenreGraph
  cache : List (String × CacheVal)
deriving DecidableEq, Repr

/-- Injected faults for one metadata repository call: each flag makes the
corresponding external call return an error. -/
structure MFaults : Type where
  neoStart : Bool
  neoRun : Bool
  neoCommit : Bool
  mongoStartSession : Bool
  mongoStartTxn : Bool
  mongoRead : Bool
  mongoWrite : Bool
  mongoCommit : Bool
  comp : Bool
deriving DecidableEq, Repr

/-- All external calls succeed. -/
def noFaults : MFaults :=
  ⟨false, false, false, false, false, false, false, false, false⟩

namespace MetadataRepository

/-- Dual-store half of `MetadataRepository::insert`, from the graph `run`
onward (the graph transaction is already open; `newDoc` is the document to
stage; `q` the built `CREATE`).  The document session commits before the
graph transaction; a graph-commit failure triggers a compensating
unsessioned `delete_one` whose own result is discarded. -/
def insert_graph (f : MFaults) (newDoc : MetadataDoc) (q : GQuery) (w : MWorld) :
    RES Metadata × MWorld × List Event :=
  if f.neoRun then (.err .neoRun, w, [.neoStartTxn, .neoRun]) else
  if f.mongoStartSession then
    (.err .mongoStartSession, w, [.neoStartTxn, .neoRun, .mongoStartSession]) else
  if f.mongoStartTxn then
    (.err .mongoStartTxn, w,
      [.neoStartTxn, .neoRun, .mongoStartSession, .mongoStartTxn]) else
  if f.mongoWrite ∨ (alookup newDoc.id w.docs).isSome then
    (.err .mongoWrite, w,
      [.neoStartTxn, .neoRun, .mongoStartSession, .mongoStartTxn, .mongoStage,
       .mongoAbort, .neoRollback]) else
  if f.mongoCommit then
    (.err .mongoCommit, w,
      [.neoStartTxn, .neoRun, .mongoStartSession, .mongoStartTxn, .mongoStage,
       .mongoCommit]) else
  if f.neoCommit then
    (.err .neoCommit,
      if f.comp then { w with docs := w.docs ++ [(newDoc.id, newDoc)] }
      else { w with docs := aremove newDoc.id (w.docs ++ [(newDoc.id, newDoc)]) },
      [.neoStartTxn, .neoRun, .mongoStartSession, .mongoStartTxn, .mongoStage,
       .mongoCommit, .neoCommit, .mongoDirect])
  else
    (.ok newDoc.meta,
      { w with docs := w.docs ++ [(newDoc.id, newDoc)], graph := applyG w.graph q },
      [.neoStartTxn, .neoRun, .mongoStartSession, .mongoStartTxn, .mongoStage,
       .mongoCommit, .neoCommit])

/-- `MetadataRepository::insert`.  For graph-participating kinds the graph
transaction is started and the `CREATE` is run first, then the document
insert is staged in a Mongo session (see `insert_graph`).
Non-participating kinds are a plain unsessioned `insert_one`. -/
def insert (f : MFaults) (m : Metadata) (w : MWorld) :
    RES Metadata × MWorld × List Event :=
  let newDoc := m.to_doc
  if m.save_in_noe4j then
    if f.neoStart then (.err .neoStart, w, [.neoStartTxn]) else
    match m.neo4j_create_query with
    | none => (.panicked, w, [.neoStartTxn])
    | some q => insert_graph f newDoc q w
  else
    if f.mongoWrite ∨ (alookup newDoc.id w.docs).isSome then
      (.err .mongoWrite, w, [.mongoDirect])
    else
      (.ok newDoc.meta, { w with docs := w.docs ++ [(newDoc.id, newDoc)] },
        [.mongoDirect])

/-- Dual-store half of `MetadataRepository::update`, from the
count-returning graph `run` onward: presence check (zero count is a hard
failure that rolls the graph back and leaves the document store
untouched), sessioned `find_one` + `update_one`, Mongo commit, Neo4j
commit, compensation by `replace_one` of the old document on a failed
graph commit. -/
def update_graph (f : MFaults) (id : String) (upd : SetDoc) (q : GQuery) (w : MWorld) :
    RES Unit × MWorld × List Event :=
  if f.neoRun then (.err .neoRun, w, [.neoStartTxn, .neoRun]) else
  if gcount w.graph q = 0 then
    (.err (.neoNotFound id), w, [.neoStartTxn, .neoRun, .neoRollback]) else
  if f.mongoStartSession then
    (.err .mongoStartSession, w, [.neoStartTxn, .neoRun, .mongoStartSession]) else
  if f.mongoStartTxn then
    (.err .mongoStartTxn, w,
      [.neoStartTxn, .neoRun, .mongoStartSession, .mongoStartTxn]) else
  if f.mongoRead then
    (.err .mongoRead, w,
      [.neoStartTxn, .neoRun, .mongoStartSession, .mongoStartTxn, .mongoRead]) else
  match alookup id w.docs with
  | none =>
    (.err (.mongoNotFound id), w,
      [.neoStartTxn, .neoRun, .mongoStartSession, .mongoStartTxn, .mongoRead])
  | some old =>
    if f.mongoWrite then
      (.err .mongoWrite, w,
        [.neoStartTxn, .neoRun, .mongoStartSession, .mongoStartTxn, .mongoRead,
         .mongoStage]) else
    if f.mongoCommit then
      (.err .mongoCommit, w,
        [.neoStartTxn, .neoRun, .mongoStartSession, .mongoStartTxn, .mongoRead,
         .mongoStage, .mongoCommit]) else
    if f.neoCommit then
      (.err .neoCommit,
        if f.comp then
          { w with docs := areplace id { old with meta := applySetMeta old.meta upd } w.docs }
        else
          { w with docs :=
              areplace id old (areplace id { old with meta := applySetMeta old.meta upd } w.docs) },
        [.neoStartTxn, .neoRun, .mongoStartSession, .mongoStartTxn, .mongoRead,
         .mongoStage, .mongoCommit, .neoCommit, .mongoDirect])
    else
      (.ok (),
        { w with docs := areplace id { old with meta := applySetMeta old.meta upd } w.docs,
                 graph := applyG w.graph q },
        [.neoStartTxn, .neoRun, .mongoStartSession, .mongoStartTxn, .mongoRead,
         .mongoStage, .mongoCommit, .neoCommit])

/-- `MetadataRepository::update`.  Note the source tests
`if(!metadata.save_in_noe4j())`: the dual-store branch (`update_graph`) is
reached exactly for the kinds that do NOT participate in the graph, whose
`neo4j_update_query_with_count` is `unreachable!()`; graph-participating
kinds fall into the plain unsessioned `update_one` branch.  On success the
function returns `Ok(Some(metadata))` with the caller-supplied value. -/
def update (f : MFaults) (m : Metadata) (w : MWorld) :
    RES (Option Metadata) × MWorld × List Event :=
  let id := m.mongo_id
  let upd := m.update_doc
  if ¬ m.save_in_noe4j then
    if f.neoStart then (.err .neoStart, w, [.neoStartTxn]) else
    match m.neo4j_update_query_with_count with
    | none => (.panicked, w, [.neoStartTxn])
    | some q =>
      match update_graph f id upd q w with
      | (.ok _, w1, evs) => (.ok (some m), w1, evs)
      | (.err e, w1, evs) => (.err e, w1, evs)
      | (.panicked, w1, evs) => (.panicked, w1, evs)
  else
    if f.mongoWrite then (.err .mongoWrite, w, [.mongoDirect]) else
    match alookup id w.docs with
    | none => (.err (.mongoNotFound id), w, [.mongoDirect])
    | some old =>
      (.ok (some m),
        { w with docs := areplace id { old with meta := applySetMeta old.meta upd } w.docs },
        [.mongoDirect])

/-- Dual-store half of `MetadataRepository::delete`, from the
count-returning graph `run` onward: presence check (zero count is a hard
failure), sessioned `find_one` + `delete_one`, Mongo commit, Neo4j commit,
compensation by re-inserting the old document on a failed graph commit. -/
def delete_graph (f : MFaults) (id : String) (q : GQuery) (w : MWorld) :
    RES Unit × MWorld × List Event :=
  if f.neoRun then (.err .neoRun, w, [.neoStartTxn, .neoRun]) else
  if gcount w.graph q = 0 then
    (.err (.neoNotFound id), w, [.neoStartTxn, .neoRun, .neoRollback]) else
  if f.mongoStartSession then
    (.err .mongoStartSession, w, [.neoStartTxn, .neoRun, .mongoStartSession]) else
  if f.mongoStartTxn then
    (.err .mongoStartTxn, w,
      [.neoStartTxn, .neoRun, .mongoStartSession, .mongoStartTxn]) else
  if f.mongoRead then
    (.err .mongoRead, w,
      [.neoStartTxn, .neoRun, .mongoStartSession, .mongoStartTxn, .mongoRead]) else
  match alookup id w.docs with
  | none =>
    (.err (.mongoNotFound id), w,
      [.neoStartTxn, .neoRun, .mongoStartSession, .mongoStartTxn, .mongoRead])
  | some old =>
    if f.mongoWrite then
      (.err .mongoWrite, w,
        [.neoStartTxn, .neoRun, .mongoStartSession, .mongoStartTxn, .mongoRead,
         .mongoStage]) else
    if f.mongoCommit then
      (.err .mongoCommit, w,
        [.neoStartTxn, .neoRun, .mongoStartSession, .mongoStartTxn, .mongoRead,
         .mongoStage, .mongoCommit]) else
    if f.neoCommit then
      (.err .neoCommit,
        if f.comp then { w with docs := aremove id w.docs }
        else { w with docs := aremove id w.docs ++ [(id, old)] },
        [.neoStartTxn, .neoRun, .mongoStartSession, .mongoStartTxn, .mongoRead,
         .mongoStage, .mongoCommit, .neoCommit, .mongoDirect])
    else
      (.ok (), { w with docs := aremove id w.docs, graph := applyG w.graph q },
        [.neoStartTxn, .neoRun, .mongoStartSession, .mongoStartTxn, .mongoRead,
         .mongoStage, .mongoCommit, .neoCommit])

/-- `MetadataRepository::delete`.  Unlike `update`, the branch condition is
the straight `if key.save_in_noe4j()`: Genre deletes take the dual-store
branch (`delete_graph`); the other kinds are a plain unsessioned
`delete_one` whose zero `deleted_count` is reported as an error. -/
def delete (f : MFaults) (k : MetadataKey) (w : MWorld) :
    RES Unit × MWorld × List Event :=
  let id := k.mongo_id
  if k.save_in_noe4j then
    if f.neoStart then (.err .neoStart, w, [.neoStartTxn]) else
    match k.neo4j_delete_query_with_count with
    | none => (.panicked, w, [.neoStartTxn])
    | some q => delete_graph f id q w
  else
    if f.mongoWrite then (.err .mongoWrite, w, [.mongoDirect]) else
    if (alookup id w.docs).isSome then
      (.ok (), { w with docs := aremove id w.docs }, [.mongoDirect])
    else
      (.err (.mongoNotFound id), w, [.mongoDirect])

/-- `MetadataRepository::find_by_key`: one unsessioned `find_one` on
`_id = key.mongo_id()`; absence is `Ok(None)`, not an error. -/
def find_by_key (f : MFaults) (k : MetadataKey) (w : MWorld) :
    RES (Option Metadata) × MWorld × List Event :=
  if f.mongoRead then (.err .mongoRead, w, [.mongoDirect])
  else (.ok ((alookup k.mongo_id w.docs).map MetadataDoc.meta), w, [.mongoDirect])

end MetadataRepository

/-- Service configuration (`service/metadata_service.rs`,
`MetadataService`): whether a Redis pool is configured, and the optional
keyspace name. -/
structure ServiceCfg : Type where
  hasPool : Bool
  space_name : Option String
deriving DecidableEq, Repr

/-- `MetadataService::cache_key`: `"{space}:{kind}:{key}"` (the leading
`"{space}:"` is dropped when no space name is configured). -/
def cache_key (c : ServiceCfg) (kind key : String) : String :=
  (match c.space_name with | some s => s ++ ":" | none => "") ++ kind ++ ":" ++ key

/-- `MetadataService::list_cache_key`: `"{space}:{kind}:list"`. -/
def list_cache_key (c : ServiceCfg) (kind : String) : String :=
  (match c.space_name with | some s => s ++ ":" | none => "") ++ kind ++ ":list"

/-- Injected faults for the cache calls of one service invocation.
Modelled from the spec: the Redis helper module
(`shared/database/redis.rs`, `get_key`/`set_key`/`delete_key`) is not in
the sources; per the spec it is a plain key/value get/set/delete with TTL
and no transactional guarantee, each call fallible when the cache is
unreachable. -/
structure SFaults : Type where
  cacheGet : Bool
  cacheSetItem : Bool
  cacheDelItem : Bool
  cacheDelList : Bool
  repo : MFaults
deriving DecidableEq, Repr

/-- All service-level and repository-level calls succeed. -/
def noSFaults : SFaults := ⟨false, false, false, false, noFaults⟩

namespace MetadataService

/-- `MetadataService::_get`: cache lookup first (`get_key(..).await?` — a
cache failure propagates); on miss, `find_by_key`; on a found result,
`set_key(..).await?` (again propagating), then `Ok`. -/
def _get (c : ServiceCfg) (sf : SFaults) (k : MetadataKey) (w : MWorld) :
    RES (Option Metadata) × MWorld × List Event :=
  let ck := cache_key c k.kind k.key
  let step2 : MWorld → List Event → RES (Option Metadata) × MWorld × List Event :=
    fun w0 evs =>
      match MetadataRepository.find_by_key sf.repo k w0 with
      | (.ok (some meta), w1, evs1) =>
        if c.hasPool then
          if sf.cacheSetItem then (.err .cache, w1, evs ++ evs1 ++ [.cacheSet])
          else
            (.ok (some meta), { w1 with cache := aset w1.cache ck (.item meta) },
              evs ++ evs1 ++ [.cacheSet])
        else (.ok (some meta), w1, evs ++ evs1)
      | (.ok none, w1, evs1) => (.ok none, w1, evs ++ evs1)
      | (.err e, w1, evs1) => (.err e, w1, evs ++ evs1)
      | (.panicked, w1, evs1) => (.panicked, w1, evs ++ evs1)
  if c.hasPool then
    if sf.cacheGet then (.err .cache, w, [.cacheGet])
    else
      match alookup ck w.cache with
      | some (.item meta) => (.ok (some meta), w, [.cacheGet])
      | _ => step2 w [.cacheGet]
  else step2 w []

/-- `MetadataService::_create`: repository insert, then (when a pool is
configured) `set_key` of the single-item entry and `delete_key` of the
list entry, each with `.await?`, so a cache failure fails the call even
though the insert already committed. -/
def _create (c : ServiceCfg) (sf : SFaults) (m : Metadata) (w : MWorld) :
    RES Metadata × MWorld × List Event :=
  let kind := m.kind
  let key_str := m.key
  match MetadataRepository.insert sf.repo m w with
  | (.ok created, w1, evs) =>
    if c.hasPool then
      if sf.cacheSetItem then (.err .cache, w1, evs ++ [.cacheSet])
      else
        let w2 : MWorld :=
          { w1 with cache := aset w1.cache (cache_key c kind key_str) (.item created) }
        if sf.cacheDelList then (.err .cache, w2, evs ++ [.cacheSet, .cacheDel])
        else
          (.ok created, { w2 with cache := aremove (list_cache_key c kind) w2.cache },
            evs ++ [.cacheSet, .cacheDel])
    else (.ok created, w1, evs)
  | (.err e, w1, evs) => (.err e, w1, evs)
  | (.panicked, w1, evs) => (.panicked, w1, evs)

/-- `MetadataService::_delete`: repository delete; only on `Ok` (a
not-found surfaces as `Err` from the repository) evict the single-item and
list cache entries, each with `.await?`. -/
def _delete (c : ServiceCfg) (sf : SFaults) (k : MetadataKey) (w : MWorld) :
    RES Unit × MWorld × List Event :=
  let kind := k.kind
  let key_str := k.key
  match MetadataRepository.delete sf.repo k w with
  | (.ok _, w1, evs) =>
    if c.hasPool then
      if sf.cacheDelItem then (.err .cache, w1, evs ++ [.cacheDel])
      else
        let w2 : MWorld :=
          { w1 with cache := aremove (cache_key c kind key_str) w1.cache }
        if sf.cacheDelList then (.err .cache, w2, evs ++ [.cacheDel, .cacheDel])
        else
          (.ok (), { w2 with cache := aremove (list_cache_key c kind) w2.cache },
            evs ++ [.cacheDel, .cacheDel])
    else (.ok (), w1, evs)
  | (.err e, w1, evs) => (.err e, w1, evs)
  | (.panicked, w1, evs) => (.panicked, w1, evs)

end MetadataService

/-- `model/author_model.rs`, `struct Author`: `_id` is an optional
`ObjectId` (its 24-hex-character string here); `books`, `external_id` and
the two timestamps are payload never read by the repository operations and
are omitted. -/
structure Author : Type where
  id : Option String
  name : String
  image_url : String
  description : String
deriving DecidableEq, Repr

/-- `ObjectId::parse_str`: accepts exactly 24 hexadecimal characters and
normalises to lower case; anything else is an error (`none`). -/
def parse_object_id (s : String) : Option String :=
  if s.length = 24 ∧ s.data.all (fun c =>
      c.isDigit ∨ ('a' ≤ c ∧ c ≤ 'f') ∨ ('A' ≤ c ∧ c ≤ 'F'))
  then some s.toLower else none

/-- `Display` of `Bson::ObjectId` (`bson` crate): renders as
`ObjectId("hex")`, not the bare hex.  `AuthorRepository::insert` uses this
for both the returned id and the `author_id` node property. -/
def bson_objectid_display (hex : String) : String :=
  "ObjectId(\"" ++ hex ++ "\")"

/-- State of the two stores for authors: the `authors` collection keyed by
the `ObjectId` hex, the `(:Author)` nodes as `(author_id, name)`, and the
stream of ids the Mongo driver would generate for documents inserted
without an `_id`. -/
structure AWorld : Type where
  docs : List (String × Author)
  graph : List (String × String)
  freshIds : List String
deriving DecidableEq, Repr

/-- Injected faults for one author repository call. -/
structure AFaults : Type where
  neoStart : Bool
  neoRun : Bool
  neoCommit : Bool
  mongoStartSession : Bool
  mongoStartTxn : Bool
  mongoWrite : Bool
  mongoCommit : Bool
deriving DecidableEq, Repr

/-- All external calls succeed. -/
def noAFaults : AFaults := ⟨false, false, false, false, false, false, false⟩

/-- The `_id` of each document of a batch insert: the caller-supplied id
when present, otherwise the next driver-generated one. -/
def assignIds : List Author → List String → List String
  | [], _ => []
  | a :: rest, fresh =>
    match a.id with
    | some h => h :: assignIds rest fresh
    | none => fresh.headD "" :: assignIds rest fresh.tail

/-- How many ids of a batch the driver generates. -/
def numGenerated (authors : List Author) : Nat :=
  (authors.filter fun a => a.id.isNone).length

namespace AuthorRepository

/-- `AuthorRepository::insert`: Mongo session + staged `insert_one`
first, then the graph transaction and the `CREATE`; Mongo commits before
Neo4j; a graph-commit failure is returned as-is with NO compensating
document write.  `AuthorNode::from(&author)` calls `author.id.unwrap()`,
a panic when the author has no caller-supplied id. -/
def insert (f : AFaults) (a : Author) (w : AWorld) :
    RES String × AWorld × List Event :=
  if f.mongoStartSession then (.err .mongoStartSession, w, [.mongoStartSession]) else
  if f.mongoStartTxn then
    (.err .mongoStartTxn, w, [.mongoStartSession, .mongoStartTxn]) else
  let inserted_id := a.id.getD (w.freshIds.headD "")
  if f.mongoWrite ∨ (alookup inserted_id w.docs).isSome then
    (.err .mongoWrite, w,
      [.mongoStartSession, .mongoStartTxn, .mongoStage, .mongoAbort]) else
  if f.neoStart then
    (.err .neoStart, w,
      [.mongoStartSession, .mongoStartTxn, .mongoStage, .neoStartTxn]) else
  match a.id with
  | none =>
    (.panicked, w, [.mongoStartSession, .mongoStartTxn, .mongoStage, .neoStartTxn])
  | some _ =>
    let node_author_id := bson_objectid_display inserted_id
    if f.neoRun then
      (.err .neoRun, w,
        [.mongoStartSession, .mongoStartTxn, .mongoStage, .neoStartTxn, .neoRun,
         .mongoAbort, .neoRollback]) else
    if f.mongoCommit then
      (.err .mongoCommit, w,
        [.mongoStartSession, .mongoStartTxn, .mongoStage, .neoStartTxn, .neoRun,
         .mongoCommit]) else
    let w1 : AWorld := { w with docs := w.docs ++ [(inserted_id, a)] }
    if f.neoCommit then
      (.err .neoCommit, w1,
        [.mongoStartSession, .mongoStartTxn, .mongoStage, .neoStartTxn, .neoRun,
         .mongoCommit, .neoCommit])
    else
      (.ok node_author_id,
        { w1 with graph := w1.graph ++ [(node_author_id, a.name)] },
        [.mongoStartSession, .mongoStartTxn, .mongoStage, .neoStartTxn, .neoRun,
         .mongoCommit, .neoCommit])

/-- `AuthorRepository::insert_many`: an empty batch returns `Ok(vec![])`
before any session is opened; otherwise one staged `insert_many`, one
`UNWIND`-batched graph `CREATE`, Mongo commit, Neo4j commit, and no
compensation on a failed graph commit. -/
def insert_many (f : AFaults) (authors : List Author) (w : AWorld) :
    RES (List String) × AWorld × List Event :=
  if authors.isEmpty then (.ok [], w, []) else
  if f.mongoStartSession then (.err .mongoStartSession, w, [.mongoStartSession]) else
  if f.mongoStartTxn then
    (.err .mongoStartTxn, w, [.mongoStartSession, .mongoStartTxn]) else
  if f.mongoWrite then
    (.err .mongoWrite, w,
      [.mongoStartSession, .mongoStartTxn, .mongoStage, .mongoAbort]) else
  let ids := assignIds authors w.freshIds
  let success_ids := ids
  if f.neoStart then
    (.err .neoStart, w,
      [.mongoStartSession, .mongoStartTxn, .mongoStage, .neoStartTxn]) else
  if f.neoRun then
    (.err .neoRun, w,
      [.mongoStartSession, .mongoStartTxn, .mongoStage, .neoStartTxn, .neoRun,
       .mongoAbort, .neoRollback]) else
  if f.mongoCommit then
    (.err .mongoCommit, w,
      [.mongoStartSession, .mongoStartTxn, .mongoStage, .neoStartTxn, .neoRun,
       .mongoCommit]) else
  let w1 : AWorld :=
    { w with docs := w.docs ++ ids.zip authors,
             freshIds := w.freshIds.drop (numGenerated authors) }
  if f.neoCommit then
    (.err .neoCommit, w1,
      [.mongoStartSession, .mongoStartTxn, .mongoStage, .neoStartTxn, .neoRun,
       .mongoCommit, .neoCommit])
  else
    (.ok success_ids,
      { w1 with graph := w1.graph ++ ids.zip (authors.map Author.name) },
      [.mongoStartSession, .mongoStartTxn, .mongoStage, .neoStartTxn, .neoRun,
       .mongoCommit, .neoCommit])

/-- `AuthorRepository::delete_many`: ids that fail `ObjectId` parsing are
silently dropped by the `filter_map`; when none survive, returns
`Ok(true)` before any session is opened; otherwise one staged
`delete_many`, one batched graph `DETACH DELETE`, Mongo commit, Neo4j
commit, and no compensation. -/
def delete_many (f : AFaults) (author_ids : List String) (w : AWorld) :
    RES Bool × AWorld × List Event :=
  let ids := author_ids.filterMap parse_object_id
  if ids.isEmpty then (.ok true, w, []) else
  let neo4j_ids := ids
  if f.mongoStartSession then (.err .mongoStartSession, w, [.mongoStartSession]) else
  if f.mongoStartTxn then
    (.err .mongoStartTxn, w, [.mongoStartSession, .mongoStartTxn]) else
  if f.mongoWrite then
    (.err .mongoWrite, w,
      [.mongoStartSession, .mongoStartTxn, .mongoStage, .mongoAbort]) else
  let deleted_count := (w.docs.filter fun p => ids.contains p.1).length
  if f.neoStart then
    (.err .neoStart, w,
      [.mongoStartSession, .mongoStartTxn, .mongoStage, .neoStartTxn]) else
  if f.neoRun then
    (.err .neoRun, w,
      [.mongoStartSession, .mongoStartTxn, .mongoStage, .neoStartTxn, .neoRun,
       .mongoAbort, .neoRollback]) else
  if f.mongoCommit then
    (.err .mongoCommit, w,
      [.mongoStartSession, .mongoStartTxn, .mongoStage, .neoStartTxn, .neoRun,
       .mongoCommit]) else
  let w1 : AWorld := { w with docs := w.docs.filter fun p => ¬ ids.contains p.1 }
  if f.neoCommit then
    (.err .neoCommit, w1,
      [.mongoStartSession, .mongoStartTxn, .mongoStage, .neoStartTxn, .neoRun,
       .mongoCommit, .neoCommit])
  else
    (.ok (decide (deleted_count ≠ 0)),
      { w1 with graph := w1.graph.filter fun p => ¬ neo4j_ids.contains p.1 },
      [.mongoStartSession, .mongoStartTxn, .mongoStage, .neoStartTxn, .neoRun,
       .mongoCommit, .neoCommit])

end AuthorRepository

/-- `model/language_model.rs`, `struct Language` (named `LanguageDoc` here because
Mathlib already declares `Language`): `code` is serialized as
`_id`, so the `language` collection is keyed by the language code. -/
structure LanguageDoc : Type where
  code : String
  name : String
deriving DecidableEq, Repr

/-- State of the two stores for languages: the `language` collection keyed
by `code`, and the `(:Language)` nodes as `(code, name)`. -/
structure LWorld : Type where
  docs : List (String × LanguageDoc)
  graph : List (String × String)
deriving DecidableEq, Repr

/-- Injected faults for one language repository call. -/
structure LFaults : Type where
  neoStart : Bool
  neoRun : Bool
  neoCommit : Bool
  mongoStartSession : Bool
  mongoStartTxn : Bool
  mongoRead : Bool
  mongoWrite : Bool
  mongoCommit : Bool
  comp : Bool
deriving DecidableEq, Repr

/-- All external calls succeed. -/
def noLFaults : LFaults :=
  ⟨false, false, false, false, false, false, false, false, false⟩

namespace LanguageRepository

/-- The Cypher that `add_language` builds (`language_repository.rs:70`)
is literally `CREATE (l:Language {code: $code, name: $name}) RETURN l})`;
the trailing `})` is a syntax error, so the graph server rejects this
`run` on every execution, whatever the parameters. -/
def add_language_run_fails : Bool := true

/-- `LanguageRepository::add_language`: graph transaction and `CREATE`
first, then Mongo session + staged `insert_one`; Mongo commits before
Neo4j; a Mongo-commit failure rolls the graph back explicitly; a
graph-commit failure triggers a compensating unsessioned `delete_one` on
`_id = code` whose result is discarded.  Because the `CREATE` Cypher is
malformed (`add_language_run_fails`), the `run` errors on every
execution and everything after it is dead code, embedded here as
written. -/
def add_language (f : LFaults) (language : LanguageDoc) (w : LWorld) :
    RES LanguageDoc × LWorld × List Event :=
  if f.neoStart then (.err .neoStart, w, [.neoStartTxn]) else
  if add_language_run_fails ∨ f.neoRun then
    (.err .neoRun, w, [.neoStartTxn, .neoRun]) else
  if f.mongoStartSession then
    (.err .mongoStartSession, w, [.neoStartTxn, .neoRun, .mongoStartSession]) else
  if f.mongoStartTxn then
    (.err .mongoStartTxn, w,
      [.neoStartTxn, .neoRun, .mongoStartSession, .mongoStartTxn]) else
  if f.mongoWrite ∨ (alookup language.code w.docs).isSome then
    (.err .mongoWrite, w,
      [.neoStartTxn, .neoRun, .mongoStartSession, .mongoStartTxn, .mongoStage,
       .mongoAbort, .neoRollback]) else
  if f.mongoCommit then
    (.err .mongoCommit, w,
      [.neoStartTxn, .neoRun, .mongoStartSession, .mongoStartTxn, .mongoStage,
       .mongoCommit, .neoRollback]) else
  let w1 : LWorld := { w with docs := w.docs ++ [(language.code, language)] }
  if f.neoCommit then
    let w2 : LWorld :=
      if f.comp then w1 else { w1 with docs := aremove language.code w1.docs }
    (.err .neoCommit, w2,
      [.neoStartTxn, .neoRun, .mongoStartSession, .mongoStartTxn, .mongoStage,
       .mongoCommit, .neoCommit, .mongoDirect])
  else
    (.ok language, { w1 with graph := w1.graph ++ [(language.code, language.name)] },
      [.neoStartTxn, .neoRun, .mongoStartSession, .mongoStartTxn, .mongoStage,
       .mongoCommit, .neoCommit])

/-- The Cypher that `update_language` builds (`language_repository.rs:121`)
is literally `MATCH (l:Language {code: $code}) SET l.name = $name}) RETURN l`;
the stray `})` after `$name` is a syntax error, so the graph server
rejects this `run` on every execution, whatever the parameters. -/
def update_language_run_fails : Bool := true

/-- `LanguageRepository::update_language`: graph transaction and the
`MATCH ... SET` run first, then Mongo session + staged `update_one`; a
zero `modified_count` (missing document, or a name equal to the stored
one) aborts both sides; after the Mongo commit the function re-reads the
document and returns — the open graph transaction is never committed, it
is dropped, so the staged `SET` is discarded.  Because the `SET` Cypher
is malformed (`update_language_run_fails`), the `run` errors on every
execution and the function can never reach its Mongo stage; the rest is
dead code, embedded here as written. -/
def update_language (f : LFaults) (language_id : String) (language : LanguageDoc)
    (w : LWorld) : RES (Option LanguageDoc) × LWorld × List Event :=
  if f.neoStart then (.err .neoStart, w, [.neoStartTxn]) else
  if update_language_run_fails ∨ f.neoRun then
    (.err .neoRun, w, [.neoStartTxn, .neoRun]) else
  if f.mongoStartSession then
    (.err .mongoStartSession, w, [.neoStartTxn, .neoRun, .mongoStartSession]) else
  if f.mongoStartTxn then
    (.err .mongoStartTxn, w,
      [.neoStartTxn, .neoRun, .mongoStartSession, .mongoStartTxn]) else
  if f.mongoWrite then
    (.err .mongoWrite, w,
      [.neoStartTxn, .neoRun, .mongoStartSession, .mongoStartTxn, .mongoStage]) else
  match alookup language_id w.docs with
  | none =>
    (.err (.mongoNotFound language_id), w,
      [.neoStartTxn, .neoRun, .mongoStartSession, .mongoStartTxn, .mongoStage,
       .mongoAbort, .neoRollback])
  | some old =>
    if old.name = language.name then
      (.err (.mongoNotFound language_id), w,
        [.neoStartTxn, .neoRun, .mongoStartSession, .mongoStartTxn, .mongoStage,
         .mongoAbort, .neoRollback]) else
    if f.mongoCommit then
      (.err .mongoCommit, w,
        [.neoStartTxn, .neoRun, .mongoStartSession, .mongoStartTxn, .mongoStage,
         .mongoCommit, .neoRollback]) else
    let w1 : LWorld :=
      { w with docs := areplace language_id { old with name := language.name } w.docs }
    if f.mongoRead then
      (.err .mongoRead, w1,
        [.neoStartTxn, .neoRun, .mongoStartSession, .mongoStartTxn, .mongoStage,
         .mongoCommit, .mongoDirect])
    else
      (.ok (alookup language_id w1.docs), w1,
        [.neoStartTxn, .neoRun, .mongoStartSession, .mongoStartTxn, .mongoStage,
         .mongoCommit, .mongoDirect])

/-- `LanguageRepository::delete_language`: graph transaction and the
`DETACH DELETE` run first, then Mongo session + staged `delete_one`; a
zero `deleted_count` aborts both sides; after the Mongo commit the
function returns — the open graph transaction is never committed, it is
dropped, so the Language node survives. -/
def delete_language (f : LFaults) (language_id : String) (w : LWorld) :
    RES Unit × LWorld × List Event :=
  if f.neoStart then (.err .neoStart, w, [.neoStartTxn]) else
  if f.neoRun then (.err .neoRun, w, [.neoStartTxn, .neoRun]) else
  if f.mongoStartSession then
    (.err .mongoStartSession, w, [.neoStartTxn, .neoRun, .mongoStartSession]) else
  if f.mongoStartTxn then
    (.err .mongoStartTxn, w,
      [.neoStartTxn, .neoRun, .mongoStartSession, .mongoStartTxn]) else
  if f.mongoWrite then
    (.err .mongoWrite, w,
      [.neoStartTxn, .neoRun, .mongoStartSession, .mongoStartTxn, .mongoStage]) else
  if (alookup language_id w.docs).isSome then
    if f.mongoCommit then
      (.err .mongoCommit, w,
        [.neoStartTxn, .neoRun, .mongoStartSession, .mongoStartTxn, .mongoStage,
         .mongoCommit, .neoRollback]) else
    (.ok (), { w with docs := aremove language_id w.docs },
      [.neoStartTxn, .neoRun, .mongoStartSession, .mongoStartTxn, .mongoStage,
       .mongoCommit])
  else
    (.err (.mongoNotFound language_id), w,
      [.neoStartTxn, .neoRun, .mongoStartSession, .mongoStartTxn, .mongoStage,
       .mongoAbort, .neoRollback])

end LanguageRepository

/-- Does an event touch the graph store at all? -/
def isNeoEvent : Event → Bool
  | .neoStartTxn => true
  | .neoRun => true
  | .neoCommit => true
  | .neoRollback => true
  | _ => false

/-- Scan helper: `seen` records whether a document commit has occurred. -/
def gcadAux : Bool → List Event → Bool
  | _, [] => true
  | seen, e :: rest =>
    match e with
    | .neoCommit => seen && gcadAux seen rest
    | .mongoCommit => gcadAux true rest
    | _ => gcadAux seen rest

/-- Every graph commit in the trace is preceded by a document commit. -/
def graphCommitAfterDocCommit (evs : List Event) : Bool :=
  gcadAux false evs

/-- Scan helper: `seen` records whether a document mutation was staged. -/
def dsbAux : Bool → List Event → Bool
  | _, [] => true
  | seen, e :: rest =>
    match e with
    | .neoRun => seen && dsbAux seen rest
    | .mongoStage => dsbAux true rest
    | _ => dsbAux seen rest

/-- Every graph mutation run in the trace is preceded by a staged document
mutation. -/
def docStagedBeforeGraphRun (evs : List Event) : Bool :=
  dsbAux false evs

theorem alookup_aremove_self {α : Type} (k : String) (l : List (String × α)) :
    alookup k (aremove k l) = none := by
  induction l with
  | nil => rfl
  | cons p rest ih =>
    obtain ⟨k', v⟩ := p
    by_cases h : k' = k <;> simp [aremove, alookup, h, ih]

theorem alookup_aremove_ne {α : Type} {k j : String} (l : List (String × α))
    (h : j ≠ k) : alookup j (aremove k l) = alookup j l := by
  have h' : ¬ k = j := fun he => h he.symm
  induction l with
  | nil => rfl
  | cons p rest ih =>
    obtain ⟨k', v⟩ := p
    by_cases hk : k' = k
    · subst hk
      simp [aremove, alookup, h', ih]
    · by_cases hj : k' = j
      · subst hj
        simp [aremove, alookup, hk]
      · simp [aremove, alookup, hk, hj, ih]

theorem alookup_areplace_ne {α : Type} {k j : String} (v : α)
    (l : List (String × α)) (h : j ≠ k) :
    alookup j (areplace k v l) = alookup j l := by
  have h' : ¬ k = j := fun he => h he.symm
  induction l with
  | nil => rfl
  | cons p rest ih =>
    obtain ⟨k', v'⟩ := p
    by_cases hk : k' = k
    · subst hk
      simp [areplace, alookup, h', ih]
    · by_cases hj : k' = j
      · subst hj
        simp [areplace, alookup, hk]
      · simp [areplace, alookup, hk, hj, ih]

theorem alookup_append_single_ne {α : Type} {k j : String} (v : α)
    (l : List (String × α)) (h : j ≠ k) :
    alookup j (l ++ [(k, v)]) = alookup j l := by
  have h' : ¬ k = j := fun he => h he.symm
  induction l with
  | nil => simp [alookup, h']
  | cons p rest ih =>
    obtain ⟨k', v'⟩ := p
    by_cases hj : k' = j <;> simp [alookup, hj, ih]

theorem alookup_append_single_self {α : Type} {k : String} (v : α)
    {l : List (String × α)} (h : alookup k l = none) :
    alookup k (l ++ [(k, v)]) = some v := by
  induction l with
  | nil => simp [alookup]
  | cons p rest ih =>
    obtain ⟨k', v'⟩ := p
    by_cases hj : k' = k
    · simp [alookup, hj] at h
    · simp [alookup, hj] at h ⊢
      exact ih h

/-- First character of a kind tag, used to separate document identifiers
of different kinds. -/
def kindChar : Metadata → Char
  | .Source _ _ => 's'
  | .Language _ _ => 'l'
  | .Genre _ _ => 'g'

theorem mongo_id_head (m : Metadata) :
    m.mongo_id.data.head? = some (kindChar m) := by
  cases m with
  | Source a b => cases a; rfl
  | Language a b => cases a; rfl
  | Genre a b => cases a; rfl

theorem mongo_id_ne_of_kind_ne (m m' : Metadata) (h : m.kind ≠ m'.kind) :
    m.mongo_id ≠ m'.mongo_id := by
  intro he
  have h1 := mongo_id_head m
  rw [he, mongo_id_head m'] at h1
  have h2 : kindChar m' = kindChar m := Option.some.inj h1
  cases m <;> cases m' <;> first
    | exact h rfl
    | (simp only [kindChar] at h2
       exact absurd h2 (by decide))

theorem delete_graph_cache_eq (f : MFaults) (id : String) (q : GQuery) (w : MWorld)
    (x : RES Unit × MWorld × List Event)
    (h : MetadataRepository.delete_graph f id q w = x) : x.2.1.cache = w.cache := by
  simp only [MetadataRepository.delete_graph] at h
  repeat' split at h
  all_goals (subst h; rfl)

theorem delete_cache_eq (f : MFaults) (k : MetadataKey) (w : MWorld)
    (x : RES Unit × MWorld × List Event)
    (h : MetadataRepository.delete f k w = x) : x.2.1.cache = w.cache := by
  cases k <;>
    simp only [MetadataRepository.delete, MetadataKey.save_in_noe4j,
      MetadataKey.neo4j_delete_query_with_count, Bool.false_eq_true, if_false,
      if_true] at h <;>
    (repeat' split at h) <;>
    first
      | (subst h; rfl)
      | exact delete_graph_cache_eq _ _ _ _ _ h

theorem delete_cache_unchanged (f : MFaults) (k : MetadataKey) (w : MWorld) :
    ((MetadataRepository.delete f k w).2.1).cache = w.cache :=
  delete_cache_eq f k w _ rfl

theorem insert_graph_docs_frame (f : MFaults) (nd : MetadataDoc) (q : GQuery)
    (w : MWorld) (x : RES Metadata × MWorld × List Event) (j : String)
    (hj : j ≠ nd.id) (h : MetadataRepository.insert_graph f nd q w = x) :
    alookup j x.2.1.docs = alookup j w.docs := by
  simp only [MetadataRepository.insert_graph] at h
  repeat' split at h
  all_goals subst h
  all_goals first
    | rfl
    | simp only [alookup_aremove_ne _ hj, alookup_append_single_ne _ _ hj]

theorem insert_docs_frame (f : MFaults) (m : Metadata) (w : MWorld)
    (x : RES Metadata × MWorld × List Event) (j : String)
    (hj : j ≠ m.mongo_id) (h : MetadataRepository.insert f m w = x) :
    alookup j x.2.1.docs = alookup j w.docs := by
  cases m <;>
    simp only [MetadataRepository.insert, Metadata.save_in_noe4j,
      Metadata.neo4j_create_query, Metadata.to_doc, Bool.false_eq_true,
      if_false, if_true] at h <;>
    (repeat' split at h) <;>
    first
      | (subst h; rfl)
      | (subst h; simp only [alookup_append_single_ne _ _ hj])
      | exact insert_graph_docs_frame _ _ _ _ _ _ hj h

theorem update_graph_docs_frame (f : MFaults) (id : String) (upd : SetDoc)
    (q : GQuery) (w : MWorld) (x : RES Unit × MWorld × List Event) (j : String)
    (hj : j ≠ id) (h : MetadataRepository.update_graph f id upd q w = x) :
    alookup j x.2.1.docs = alookup j w.docs := by
  simp only [MetadataRepository.update_graph] at h
  repeat' split at h
  all_goals subst h
  all_goals first
    | rfl
    | simp only [alookup_areplace_ne _ _ hj]

theorem update_docs_frame (f : MFaults) (m : Metadata) (w : MWorld)
    (x : RES (Option Metadata) × MWorld × List Event) (j : String)
    (hj : j ≠ m.mongo_id) (h : MetadataRepository.update f m w = x) :
    alookup j x.2.1.docs = alookup j w.docs := by
  cases m <;>
    simp only [MetadataRepository.update, Metadata.save_in_noe4j,
      Metadata.neo4j_update_query_with_count, Metadata.update_doc,
      Bool.false_eq_true, eq_self_iff_true, not_true, not_false_iff,
      if_false, if_true] at h <;>
    (repeat' split at h) <;>
    first
      | (subst h; rfl)
      | (subst h; simp only [alookup_areplace_ne _ _ hj])

theorem delete_graph_docs_frame (f : MFaults) (id : String) (q : GQuery)
    (w : MWorld) (x : RES Unit × MWorld × List Event) (j : String)
    (hj : j ≠ id) (h : MetadataRepository.delete_graph f id q w = x) :
    alookup j x.2.1.docs = alookup j w.docs := by
  simp only [MetadataRepository.delete_graph] at h
  repeat' split at h
  all_goals subst h
  all_goals first
    | rfl
    | simp only [alookup_aremove_ne _ hj, alookup_append_single_ne _ _ hj]

theorem delete_docs_frame (f : MFaults) (k : MetadataKey) (w : MWorld)
    (x : RES Unit × MWorld × List Event) (j : String)
    (hj : j ≠ k.mongo_id) (h : MetadataRepository.delete f k w = x) :
    alookup j x.2.1.docs = alookup j w.docs := by
  cases k <;>
    simp only [MetadataRepository.delete, MetadataKey.save_in_noe4j,
      MetadataKey.neo4j_delete_query_with_count, Bool.false_eq_true,
      if_false, if_true] at h <;>
    (repeat' split at h) <;>
    first
      | (subst h; rfl)
      | (subst h; simp only [alookup_aremove_ne _ hj])
      | exact delete_graph_docs_frame _ _ _ _ _ _ hj h

theorem insert_graph_commitOrder (f : MFaults) (nd : MetadataDoc) (q : GQuery)
    (w : MWorld) (x : RES Metadata × MWorld × List Event)
    (h : MetadataRepository.insert_graph f nd q w = x) :
    graphCommitAfterDocCommit x.2.2 = true := by
  simp only [MetadataRepository.insert_graph] at h
  repeat' split at h
  all_goals (subst h; rfl)

theorem insert_commitOrder (f : MFaults) (m : Metadata) (w : MWorld)
    (x : RES Metadata × MWorld × List Event)
    (h : MetadataRepository.insert f m w = x) :
    graphCommitAfterDocCommit x.2.2 = true := by
  cases m <;>
    simp only [MetadataRepository.insert, Metadata.save_in_noe4j,
      Metadata.neo4j_create_query, Metadata.to_doc, Bool.false_eq_true,
      if_false, if_true] at h <;>
    (repeat' split at h) <;>
    first
      | (subst h; rfl)
      | exact insert_graph_commitOrder _ _ _ _ _ h

theorem update_graph_commitOrder (f : MFaults) (id : String) (upd : SetDoc)
    (q : GQuery) (w : MWorld) (x : RES Unit × MWorld × List Event)
    (h : MetadataRepository.update_graph f id upd q w = x) :
    graphCommitAfterDocCommit x.2.2 = true := by
  simp only [MetadataRepository.update_graph] at h
  repeat' split at h
  all_goals (subst h; rfl)

theorem update_commitOrder (f : MFaults) (m : Metadata) (w : MWorld)
    (x : RES (Option Metadata) × MWorld × List Event)
    (h : MetadataRepository.update f m w = x) :
    graphCommitAfterDocCommit x.2.2 = true := by
  cases m <;>
    simp only [MetadataRepository.update, Metadata.save_in_noe4j,
      Metadata.neo4j_update_query_with_count, Metadata.update_doc,
      Bool.false_eq_true, eq_self_iff_true, not_true, not_false_iff,
      if_false, if_true] at h <;>
    (repeat' split at h) <;>
    (subst h; rfl)

theorem delete_graph_commitOrder (f : MFaults) (id : String) (q : GQuery)
    (w : MWorld) (x : RES Unit × MWorld × List Event)
    (h : MetadataRepository.delete_graph f id q w = x) :
    graphCommitAfterDocCommit x.2.2 = true := by
  simp only [MetadataRepository.delete_graph] at h
  repeat' split at h
  all_goals (subst h; rfl)

theorem delete_commitOrder (f : MFaults) (k : MetadataKey) (w : MWorld)
    (x : RES Unit × MWorld × List Event)
    (h : MetadataRepository.delete f k w = x) :
    graphCommitAfterDocCommit x.2.2 = true := by
  cases k <;>
    simp only [MetadataRepository.delete, MetadataKey.save_in_noe4j,
      MetadataKey.neo4j_delete_query_with_count, Bool.false_eq_true,
      if_false, if_true] at h <;>
    (repeat' split at h) <;>
    first
      | (subst h; rfl)
      | exact delete_graph_commitOrder _ _ _ _ _ h

theorem author_insert_commitOrder (f : AFaults) (a : Author) (w : AWorld)
    (x : RES String × AWorld × List Event)
    (h : AuthorRepository.insert f a w = x) :
    graphCommitAfterDocCommit x.2.2 = true := by
  simp only [AuthorRepository.insert] at h
  repeat' split at h
  all_goals (subst h; rfl)

theorem author_insert_docStagedFirst (f : AFaults) (a : Author) (w : AWorld)
    (x : RES String × AWorld × List Event)
    (h : AuthorRepository.insert f a w = x) :
    docStagedBeforeGraphRun x.2.2 = true := by
  simp only [AuthorRepository.insert] at h
  repeat' split at h
  all_goals (subst h; rfl)

theorem author_insert_many_docStagedFirst (f : AFaults) (as : List Author)
    (w : AWorld) (x : RES (List String) × AWorld × List Event)
    (h : AuthorRepository.insert_many f as w = x) :
    docStagedBeforeGraphRun x.2.2 = true := by
  simp only [AuthorRepository.insert_many] at h
  repeat' split at h
  all_goals (subst h; rfl)

theorem author_delete_many_docStagedFirst (f : AFaults) (ids : List String)
    (w : AWorld) (x : RES Bool × AWorld × List Event)
    (h : AuthorRepository.delete_many f ids w = x) :
    docStagedBeforeGraphRun x.2.2 = true := by
  simp only [AuthorRepository.delete_many] at h
  repeat' split at h
  all_goals (subst h; rfl)

theorem author_insert_many_commitOrder (f : AFaults) (as : List Author)
    (w : AWorld) (x : RES (List String) × AWorld × List Event)
    (h : AuthorRepository.insert_many f as w = x) :
    graphCommitAfterDocCommit x.2.2 = true := by
  simp only [AuthorRepository.insert_many] at h
  repeat' split at h
  all_goals (subst h; rfl)

theorem author_delete_many_commitOrder (f : AFaults) (ids : List String)
    (w : AWorld) (x : RES Bool × AWorld × List Event)
    (h : AuthorRepository.delete_many f ids w = x) :
    graphCommitAfterDocCommit x.2.2 = true := by
  simp only [AuthorRepository.delete_many] at h
  repeat' split at h
  all_goals (subst h; rfl)

theorem language_add_commitOrder (f : LFaults) (l : LanguageDoc) (w : LWorld)
    (x : RES LanguageDoc × LWorld × List Event)
    (h : LanguageRepository.add_language f l w = x) :
    graphCommitAfterDocCommit x.2.2 = true := by
  simp only [LanguageRepository.add_language] at h
  repeat' split at h
  all_goals (subst h; rfl)

theorem language_update_commitOrder (f : LFaults) (lid : String)
    (l : LanguageDoc) (w : LWorld) (x : RES (Option LanguageDoc) × LWorld × List Event)
    (h : LanguageRepository.update_language f lid l w = x) :
    graphCommitAfterDocCommit x.2.2 = true := by
  simp only [LanguageRepository.update_language] at h
  repeat' split at h
  all_goals (subst h; rfl)

theorem language_delete_commitOrder (f : LFaults) (lid : String) (w : LWorld)
    (x : RES Unit × LWorld × List Event)
    (h : LanguageRepository.delete_language f lid w = x) :
    graphCommitAfterDocCommit x.2.2 = true := by
  simp only [LanguageRepository.delete_language] at h
  repeat' split at h
  all_goals (subst h; rfl)

/-- Empty metadata world. -/
def emptyMWorld : MWorld := { docs := [], graph := [], cache := [] }

/-- A world holding the Genre `sci-fi` consistently in both stores. -/
def w_scifi : MWorld :=
  { docs := [("genre:sci-fi",
      { id := "genre:sci-fi", key := "sci-fi",
        meta := Metadata.Genre "sci-fi" "speculative fiction" })],
    graph := [("sci-fi", "speculative fiction")],
    cache := [] }

/-- The update of C1's scenario: change the description of `sci-fi`. -/
def c1_run : RES (Option Metadata) × MWorld × List Event :=
  MetadataRepository.update noFaults (Metadata.Genre "sci-fi" "space opera") w_scifi

/-- C1: the claim says that after every successful create/update/delete of a
graph-participating entity the document and the graph node agree on the
mirrored fields.  The code violates this on update: because
`MetadataRepository::update` tests `if(!metadata.save_in_noe4j())`, a Genre
update takes the document-only branch, so a fully successful update of
`Genre{sci-fi}` changes the stored description to "space opera" while the
graph node keeps "speculative fiction", and no graph call is even made. -/
theorem c1_genre_update_leaves_graph_stale :
    c1_run.1 = RES.ok (some (Metadata.Genre "sci-fi" "space opera"))
    ∧ (alookup "genre:sci-fi" c1_run.2.1.docs).map MetadataDoc.meta =
        some (Metadata.Genre "sci-fi" "space opera")
    ∧ c1_run.2.1.graph = [("sci-fi", "speculative fiction")]
    ∧ c1_run.2.2.all (fun e => ¬ isNeoEvent e) = true := by
  refine ⟨rfl, rfl, rfl, rfl⟩

/-- The update of C3's scenario: a Source, which does not participate in
the graph. -/
def c3_run : RES (Option Metadata) × MWorld × List Event :=
  MetadataRepository.update noFaults
    (Metadata.Source "google_books" "https://books.google.com") emptyMWorld

/-- A plain delete of a Source document, for contrast. -/
def c3_del : RES Unit × MWorld × List Event :=
  MetadataRepository.delete noFaults (MetadataKey.Source "google_books")
    { docs := [("source:google_books",
        { id := "source:google_books", key := "google_books",
          meta := Metadata.Source "google_books" "https://books.google.com" })],
      graph := [], cache := [] }

/-- C3: the claim says update/delete of a non-graph kind is a pass-through
to the document store: no graph transaction, no graph query, no panic.
Delete behaves that way, but update of a Source opens a Neo4j transaction
and then panics at the `unreachable!()` in `neo4j_update_query_with_count`
(the inverted `save_in_noe4j` test routes non-graph kinds into the graph
branch), never reaching the document store. -/
theorem c3_source_update_opens_graph_and_panics :
    c3_run.1 = RES.panicked
    ∧ c3_run.2.2 = [Event.neoStartTxn]
    ∧ c3_run.2.1 = emptyMWorld
    ∧ c3_del.1 = RES.ok ()
    ∧ c3_del.2.2 = [Event.mongoDirect] := by
  refine ⟨rfl, rfl, rfl, rfl, rfl⟩

/-- C4's scenario world: the Genre document exists but its graph node is
missing. -/
def c4w : MWorld :=
  { docs := [("genre:sci-fi",
      { id := "genre:sci-fi", key := "sci-fi",
        meta := Metadata.Genre "sci-fi" "speculative fiction" })],
    graph := [], cache := [] }

/-- Update of the Genre whose graph node is missing. -/
def c4_run : RES (Option Metadata) × MWorld × List Event :=
  MetadataRepository.update noFaults (Metadata.Genre "sci-fi" "space opera") c4w

/-- Delete of the same Genre, for contrast: delete does run the presence
check. -/
def c4_del : RES Unit × MWorld × List Event :=
  MetadataRepository.delete noFaults (MetadataKey.Genre "sci-fi") c4w

/-- C4: the claim says every update or delete of a graph-participating
entity runs a count-returning presence check inside the graph transaction
and fails hard (without touching the document store) when zero nodes
match.  Delete does exactly that, but update of a Genre never opens a
graph transaction (inverted `save_in_noe4j` test): with the graph node
absent it still succeeds and modifies the document. -/
theorem c4_genre_update_skips_presence_check :
    c4_run.1 = RES.ok (some (Metadata.Genre "sci-fi" "space opera"))
    ∧ (alookup "genre:sci-fi" c4_run.2.1.docs).map MetadataDoc.meta =
        some (Metadata.Genre "sci-fi" "space opera")
    ∧ c4_run.2.2.all (fun e => ¬ isNeoEvent e) = true
    ∧ c4_del.1 = RES.err (RErr.neoNotFound "genre:sci-fi")
    ∧ c4_del.2.1.docs = c4w.docs := by
  refine ⟨rfl, rfl, rfl, rfl, rfl⟩

/-- C5's scenario world: the language `en` present in both stores. -/
def c5w : LWorld :=
  { docs := [("en", { code := "en", name := "Anglish" })],
    graph := [("en", "Anglish")] }

/-- A language update attempt with every injected fault off. -/
def c5_run : RES (Option LanguageDoc) × LWorld × List Event :=
  LanguageRepository.update_language noLFaults "en"
    { code := "en", name := "English" } c5w

/-- A fully successful language delete. -/
def c5_del : RES Unit × LWorld × List Event :=
  LanguageRepository.delete_language noLFaults "en" c5w

/-- C5: the claim says that on a successful update or delete all four
phases run, and in particular the open graph transaction is committed
after the document commit.  In `delete_language` the graph transaction is
opened and the `DETACH DELETE` staged, the document delete commits — and
the function then returns without ever committing the graph transaction,
which is dropped: no `neoCommit` call occurs, the staged graph change is
lost and the Language node survives the delete.  (`update_language` never
even reaches a commit phase: its `SET` Cypher is malformed, so the graph
`run` errors on every execution.) -/
theorem c5_language_delete_drops_graph_txn :
    c5_del.1 = RES.ok ()
    ∧ c5_del.2.1.docs = []
    ∧ c5_del.2.1.graph = [("en", "Anglish")]
    ∧ Event.neoCommit ∉ c5_del.2.2
    ∧ Event.mongoCommit ∈ c5_del.2.2
    ∧ c5_run.1 = RES.err RErr.neoRun
    ∧ c5_run.2.1 = c5w := by
  refine ⟨rfl, rfl, rfl, by decide, by decide, rfl, rfl⟩

/-- The service configuration used by the cache scenarios: a Redis pool
with keyspace `booknet`. -/
def cfgP : ServiceCfg := { hasPool := true, space_name := some "booknet" }

/-- Cache faults for C7: only the single-item `set_key` fails. -/
def c7_faults : SFaults := ⟨false, true, false, false, noFaults⟩

/-- Create of a Genre with the cache set failing. -/
def c7_run : RES Metadata × MWorld × List Event :=
  MetadataService._create cfgP c7_faults (Metadata.Genre "sci-fi" "sf") emptyMWorld

/-- C7: the claim (and the spec) say a cache failure must never fail the
overall operation when the store write succeeded.  In
`MetadataService::_create` the cache calls are written
`let _ = set_key(..).await?` — the `?` propagates the cache error even
though `let _ =` was meant to discard it — so a create whose repository
insert fully committed to both stores still returns an error when the
cache set fails. -/
theorem c7_cache_failure_fails_create :
    c7_run.1 = RES.err RErr.cache
    ∧ (alookup "genre:sci-fi" c7_run.2.1.docs).map MetadataDoc.meta =
        some (Metadata.Genre "sci-fi" "sf")
    ∧ c7_run.2.1.graph = [("sci-fi", "sf")] := by
  refine ⟨rfl, rfl, rfl⟩

/-- C6's scenario: a fully successful Genre insert, starting from empty
stores. -/
def c6_run : RES Metadata × MWorld × List Event :=
  MetadataRepository.insert noFaults (Metadata.Genre "sci-fi" "sf") emptyMWorld

/-- A fully successful language delete, for the second staging-order
example. -/
def c6_ldel : RES Unit × LWorld × List Event :=
  LanguageRepository.delete_language noLFaults "en"
    { docs := [("en", { code := "en", name := "English" })],
      graph := [("en", "English")] }

/-- C6 counterexample: the claim says that for every dual-store write the
document transaction is staged before the graph mutation is attempted.
On the (successful) metadata insert and language delete paths the graph
transaction is started and the mutation run BEFORE the Mongo session is
even opened: the first two external calls are `neoStartTxn, neoRun`, so
the staged-document-first ordering is false. -/
theorem c6_graph_staged_before_document :
    c6_run.1 = RES.ok (Metadata.Genre "sci-fi" "sf")
    ∧ docStagedBeforeGraphRun c6_run.2.2 = false
    ∧ c6_run.2.2.take 2 = [Event.neoStartTxn, Event.neoRun]
    ∧ c6_ldel.1 = RES.ok ()
    ∧ docStagedBeforeGraphRun c6_ldel.2.2 = false
    ∧ c6_ldel.2.2.take 2 = [Event.neoStartTxn, Event.neoRun] := by
  refine ⟨rfl, rfl, rfl, rfl, rfl, rfl⟩

/-- C6 (amended): in every execution of every dual-store write, any graph
commit is preceded by a document commit (the second half of the claim);
the first half holds exactly on the author write paths — `insert`,
`insert_many` and `delete_many` all stage the document mutation before
running the graph mutation — while the metadata and language write paths
run the graph mutation first (see the counterexample). -/
theorem c6_document_committed_before_graph (fm : MFaults) (fa : AFaults)
    (fl : LFaults) (m : Metadata) (k : MetadataKey) (a : Author)
    (as : List Author) (ids : List String) (l : LanguageDoc) (lid : String)
    (w : MWorld) (wa : AWorld) (wl : LWorld) :
    graphCommitAfterDocCommit (MetadataRepository.insert fm m w).2.2 = true
    ∧ graphCommitAfterDocCommit (MetadataRepository.update fm m w).2.2 = true
    ∧ graphCommitAfterDocCommit (MetadataRepository.delete fm k w).2.2 = true
    ∧ graphCommitAfterDocCommit (AuthorRepository.insert fa a wa).2.2 = true
    ∧ graphCommitAfterDocCommit (AuthorRepository.insert_many fa as wa).2.2 = true
    ∧ graphCommitAfterDocCommit (AuthorRepository.delete_many fa ids wa).2.2 = true
    ∧ graphCommitAfterDocCommit (LanguageRepository.add_language fl l wl).2.2 = true
    ∧ graphCommitAfterDocCommit (LanguageRepository.update_language fl lid l wl).2.2 = true
    ∧ graphCommitAfterDocCommit (LanguageRepository.delete_language fl lid wl).2.2 = true
    ∧ docStagedBeforeGraphRun (AuthorRepository.insert fa a wa).2.2 = true
    ∧ docStagedBeforeGraphRun (AuthorRepository.insert_many fa as wa).2.2 = true
    ∧ docStagedBeforeGraphRun (AuthorRepository.delete_many fa ids wa).2.2 = true :=
  ⟨insert_commitOrder _ _ _ _ rfl,
   update_commitOrder _ _ _ _ rfl,
   delete_commitOrder _ _ _ _ rfl,
   author_insert_commitOrder _ _ _ _ rfl,
   author_insert_many_commitOrder _ _ _ _ rfl,
   author_delete_many_commitOrder _ _ _ _ rfl,
   language_add_commitOrder _ _ _ _ rfl,
   language_update_commitOrder _ _ _ _ _ rfl,
   language_delete_commitOrder _ _ _ _ rfl,
   author_insert_docStagedFirst _ _ _ _ rfl,
   author_insert_many_docStagedFirst _ _ _ _ rfl,
   author_delete_many_docStagedFirst _ _ _ _ rfl⟩

theorem filterMap_filter_isSome {α β : Type} (g : α → Option β) (l : List α) :
    (l.filter fun s => (g s).isSome).filterMap g = l.filterMap g := by
  induction l with
  | nil => rfl
  | cons a t ih =>
    by_cases hga : (g a).isSome
    · obtain ⟨b, hb⟩ := Option.isSome_iff_exists.mp hga
      simp [List.filter, List.filterMap, hga, hb, ih]
    · have hn : g a = none := Option.not_isSome_iff_eq_none.mp hga
      simp [List.filter, List.filterMap, hga, hn, ih]

/-- C10: the author batch operations treat degenerate input as a
successful no-op: `insert_many []` returns `Ok(vec![])` with no external
call at all; `delete_many` silently drops every id that fails `ObjectId`
parsing (so it behaves exactly as if called on the parsable ids only),
and when none survives it returns `Ok(true)` without touching either
store. -/
theorem c10_author_batch_degenerate (f : AFaults) (w : AWorld)
    (ids ids' : List String) (h : ∀ s ∈ ids, parse_object_id s = none) :
    AuthorRepository.insert_many f [] w = (RES.ok [], w, [])
    ∧ AuthorRepository.delete_many f ids w = (RES.ok true, w, [])
    ∧ AuthorRepository.delete_many f ids' w =
        AuthorRepository.delete_many f
          (ids'.filter fun s => (parse_object_id s).isSome) w := by
  refine ⟨rfl, ?_, ?_⟩
  · have he : ids.filterMap parse_object_id = [] := List.filterMap_eq_nil.mpr h
    simp [AuthorRepository.delete_many, he]
  · simp only [AuthorRepository.delete_many, filterMap_filter_isSome]

/-- C10 witness: concrete degenerate inputs — the empty batch and a list
whose ids all fail `ObjectId` parsing. -/
theorem c10_witness :
    AuthorRepository.insert_many noAFaults []
      { docs := [], graph := [], freshIds := [] } =
      (RES.ok [], { docs := [], graph := [], freshIds := [] }, [])
    ∧ AuthorRepository.delete_many noAFaults ["not-an-oid", ""]
        { docs := [("aaaaaaaaaaaaaaaaaaaaaaaa",
            { id := some "aaaaaaaaaaaaaaaaaaaaaaaa", name := "A. Author",
              image_url := "", description := "" })], graph := [], freshIds := [] } =
      (RES.ok true,
        { docs := [("aaaaaaaaaaaaaaaaaaaaaaaa",
            { id := some "aaaaaaaaaaaaaaaaaaaaaaaa", name := "A. Author",
              image_url := "", description := "" })], graph := [], freshIds := [] }, []) :=
  ⟨(c10_author_batch_degenerate noAFaults
      { docs := [], graph := [], freshIds := [] } [] [] (by simp)).1,
   (c10_author_batch_degenerate noAFaults
      { docs := [("aaaaaaaaaaaaaaaaaaaaaaaa",
          { id := some "aaaaaaaaaaaaaaaaaaaaaaaa", name := "A. Author",
            image_url := "", description := "" })], graph := [], freshIds := [] }
      ["not-an-oid", ""] [] (by decide)).2.1⟩

/-- Fault injection: only the graph commit fails. -/
def mf_neoCommit : MFaults :=
  ⟨false, false, true, false, false, false, false, false, false⟩

/-- Fault injection: the graph commit fails and the compensating document
write also fails. -/
def mf_neoCommit_comp : MFaults :=
  ⟨false, false, true, false, false, false, false, false, true⟩

/-- Fault injection for the author repository: only the graph commit
fails. -/
def af_neoCommit : AFaults := ⟨false, false, true, false, false, false, false⟩

/-- The author of C2's scenario (with a caller-supplied id, since
`AuthorNode::from` unwraps it). -/
def a_author : Author :=
  { id := some "aaaaaaaaaaaaaaaaaaaaaaaa", name := "A. Author",
    image_url := "", description := "" }

/-- C2's scenario: author insert into empty stores, graph commit fails
after the document commit succeeded. -/
def c2_run : RES String × AWorld × List Event :=
  AuthorRepository.insert af_neoCommit a_author
    { docs := [], graph := [], freshIds := [] }

/-- C2 counterexample: the claim says that for every insert of a
graph-participating entity a failed graph commit after a successful
document commit triggers a compensating delete, leaving no document.  On
the author insert path (`AuthorRepository::insert`, the spec's own
`Author{name:"A. Author"}` scenario) the code is
`mongo_session.commit_transaction().await?; neo4j_tx.commit().await?`
with no compensation at all: after the failed graph commit the committed
author document remains in the store and the ordinary graph error is
returned. -/
theorem c2_author_insert_no_compensation :
    c2_run.1 = RES.err RErr.neoCommit
    ∧ c2_run.2.1.docs = [("aaaaaaaaaaaaaaaaaaaaaaaa", a_author)]
    ∧ c2_run.2.1.graph = [] := by
  refine ⟨rfl, rfl, rfl⟩

/-- C2 (amended): only the metadata insert path compensates — a failed
graph commit after the document commit triggers the compensating
`delete_one`, leaving no document and no graph node when the delete
succeeds; when the compensation itself fails the committed document
remains, but the SAME ordinary graph-commit error is returned in both
cases (no distinguishable partial-failure error exists).  The author
insert path attempts no compensation: the committed document remains. -/
theorem c2_insert_graph_commit_failure (m : Metadata) (w : MWorld) (a : Author)
    (s : String) (wa : AWorld) (hm : m.save_in_noe4j = true)
    (hnew : alookup m.mongo_id w.docs = none) (ha : a.id = some s)
    (hanew : alookup s wa.docs = none) :
    ((MetadataRepository.insert mf_neoCommit m w).1 = RES.err RErr.neoCommit
      ∧ alookup m.mongo_id (MetadataRepository.insert mf_neoCommit m w).2.1.docs = none
      ∧ (MetadataRepository.insert mf_neoCommit m w).2.1.graph = w.graph)
    ∧ ((MetadataRepository.insert mf_neoCommit_comp m w).1 = RES.err RErr.neoCommit
      ∧ alookup m.mongo_id (MetadataRepository.insert mf_neoCommit_comp m w).2.1.docs =
          some m.to_doc)
    ∧ ((AuthorRepository.insert af_neoCommit a wa).1 = RES.err RErr.neoCommit
      ∧ (AuthorRepository.insert af_neoCommit a wa).2.1.docs = wa.docs ++ [(s, a)]
      ∧ (AuthorRepository.insert af_neoCommit a wa).2.1.graph = wa.graph) := by
  cases m <;> simp only [Metadata.save_in_noe4j, Bool.false_eq_true] at hm
  case Genre n d =>
  refine ⟨⟨?_, ?_, ?_⟩, ⟨?_, ?_⟩, ⟨?_, ?_, ?_⟩⟩ <;>
    simp only [MetadataRepository.insert, MetadataRepository.insert_graph,
      AuthorRepository.insert, mf_neoCommit, mf_neoCommit_comp, af_neoCommit,
      Metadata.save_in_noe4j, Metadata.neo4j_create_query, Metadata.to_doc,
      ha, hnew, hanew, Option.getD_some, Option.isSome_none,
      Bool.false_eq_true, or_self, false_or, if_true, if_false] <;>
    first
      | rfl
      | exact alookup_aremove_self _ _
      | exact alookup_append_single_self _ hnew

/-- C2 witness: the amended behavior at a concrete input — metadata insert
of `Genre{sci-fi}` into empty stores with the graph commit failing and
the compensation succeeding: no document, no graph node, ordinary error. -/
theorem c2_witness :
    (MetadataRepository.insert mf_neoCommit (Metadata.Genre "sci-fi" "sf")
        emptyMWorld).1 = RES.err RErr.neoCommit
    ∧ alookup "genre:sci-fi"
        (MetadataRepository.insert mf_neoCommit (Metadata.Genre "sci-fi" "sf")
          emptyMWorld).2.1.docs = none
    ∧ (MetadataRepository.insert mf_neoCommit (Metadata.Genre "sci-fi" "sf")
        emptyMWorld).2.1.graph = [] :=
  (c2_insert_graph_commit_failure (Metadata.Genre "sci-fi" "sf") emptyMWorld
    a_author "aaaaaaaaaaaaaaaaaaaaaaaa" { docs := [], graph := [], freshIds := [] }
    rfl rfl rfl rfl).1

theorem alookup_aremove_of_none {α : Type} {j k : String}
    {l : List (String × α)} (h : alookup j l = none) :
    alookup j (aremove k l) = none := by
  by_cases hk : j = k
  · subst hk; exact alookup_aremove_self _ _
  · rw [alookup_aremove_ne _ hk]; exact h

/-- C8's scenario world: both cache entries for Source present, but no
document. -/
def c8w : MWorld :=
  { docs := [], graph := [],
    cache := [("booknet:source:google_books",
        CacheVal.item (Metadata.Source "google_books" "https://books.google.com")),
      ("booknet:source:list",
        CacheVal.list [Metadata.Source "google_books" "https://books.google.com"])] }

/-- Delete of a Source that is not in the store, caches populated. -/
def c8_run : RES Unit × MWorld × List Event :=
  MetadataService._delete cfgP noSFaults (MetadataKey.Source "google_books") c8w

/-- C8 counterexample: the claim says the single-item and list cache
entries are evicted both on a successful delete and on not-found.  The
repository reports not-found as an error (`deleted_count == 0` maps to
`Err`), and `MetadataService::_delete` evicts only after an `Ok`: on a
not-found delete both cache entries survive untouched. -/
theorem c8_notfound_skips_eviction :
    c8_run.1 = RES.err (RErr.mongoNotFound "source:google_books")
    ∧ c8_run.2.1.cache = c8w.cache := by
  refine ⟨rfl, rfl⟩

/-- C8 (amended): when the underlying delete returns `Ok`, the service
evicts both the single-item and the list cache entry; when the repository
delete fails (including not-found, which it reports as an error), the
service returns that error and the cache is left exactly as it was. -/
theorem c8_delete_evicts_only_on_success (c : ServiceCfg) (sf : SFaults)
    (k : MetadataKey) (w : MWorld) (hpool : c.hasPool = true)
    (h1 : sf.cacheDelItem = false) (h2 : sf.cacheDelList = false) :
    ((MetadataService._delete c sf k w).1 = RES.ok ()
      → alookup (cache_key c k.kind k.key)
          (MetadataService._delete c sf k w).2.1.cache = none
        ∧ alookup (list_cache_key c k.kind)
            (MetadataService._delete c sf k w).2.1.cache = none)
    ∧ (∀ e, (MetadataRepository.delete sf.repo k w).1 = RES.err e
      → (MetadataService._delete c sf k w).1 = RES.err e
        ∧ (MetadataService._delete c sf k w).2.1.cache = w.cache) := by
  rcases hd : MetadataRepository.delete sf.repo k w with ⟨r, w1, evs⟩
  have hcache : w1.cache = w.cache := delete_cache_eq sf.repo k w _ hd
  cases r with
  | ok u =>
    constructor
    · intro _
      simp only [MetadataService._delete, hd, hpool, h1, h2, Bool.false_eq_true,
        if_false, if_true]
      exact ⟨alookup_aremove_of_none (alookup_aremove_self _ _),
        alookup_aremove_self _ _⟩
    · intro e he
      simp at he
  | err e0 =>
    constructor
    · intro hok
      simp only [MetadataService._delete, hd] at hok
      simp at hok
    · intro e he
      have he2 : e0 = e := by injection he
      subst he2
      simp only [MetadataService._delete, hd]
      exact ⟨trivial, hcache⟩
  | panicked =>
    constructor
    · intro hok
      simp only [MetadataService._delete, hd] at hok
      simp at hok
    · intro e he
      simp at he

/-- C8 witness: a concrete successful delete — Source present in the
store, caches populated — after which both cache keys are absent. -/
theorem c8_witness :
    alookup (cache_key cfgP (MetadataKey.Source "google_books").kind
        (MetadataKey.Source "google_books").key)
      (MetadataService._delete cfgP noSFaults (MetadataKey.Source "google_books")
        { docs := [("source:google_books",
            { id := "source:google_books", key := "google_books",
              meta := Metadata.Source "google_books" "https://books.google.com" })],
          graph := [], cache := c8w.cache }).2.1.cache = none
    ∧ alookup (list_cache_key cfgP (MetadataKey.Source "google_books").kind)
        (MetadataService._delete cfgP noSFaults (MetadataKey.Source "google_books")
          { docs := [("source:google_books",
              { id := "source:google_books", key := "google_books",
                meta := Metadata.Source "google_books" "https://books.google.com" })],
            graph := [], cache := c8w.cache }).2.1.cache = none :=
  (c8_delete_evicts_only_on_success cfgP noSFaults (MetadataKey.Source "google_books")
    { docs := [("source:google_books",
        { id := "source:google_books", key := "google_books",
          meta := Metadata.Source "google_books" "https://books.google.com" })],
      graph := [], cache := c8w.cache }
    rfl rfl rfl).1 (by decide)

theorem insert_stores_noFaults (m : Metadata) (w : MWorld)
    (hnew : alookup m.mongo_id w.docs = none) :
    alookup m.mongo_id (MetadataRepository.insert noFaults m w).2.1.docs =
      some m.to_doc := by
  cases m <;>
    simp only [MetadataRepository.insert, MetadataRepository.insert_graph,
      noFaults, Metadata.save_in_noe4j, Metadata.neo4j_create_query,
      Metadata.to_doc, hnew, Option.isSome_none, Bool.false_eq_true, or_self,
      if_true, if_false] <;>
    exact alookup_append_single_self _ hnew

/-- C9: every metadata entity is addressed by the identifier
`"kind:key"`.  Conjuncts: identifiers of different kinds never collide;
the stored document's `_id` is exactly `mongo_id` (which is `id_from kind
key`, so the document is locatable from kind and key alone);
`find_by_key` reads exactly that identifier; a fresh no-fault insert
stores the document under it; and insert, update and delete never touch
any other identifier, under every fault injection. -/
theorem c9_mongo_id_addressing (m m' : Metadata) (k : MetadataKey)
    (f : MFaults) (w : MWorld) (j : String) (hkind : m.kind ≠ m'.kind)
    (hnew : alookup m.mongo_id w.docs = none) (hj : j ≠ m.mongo_id)
    (hjk : j ≠ k.mongo_id) :
    m.mongo_id ≠ m'.mongo_id
    ∧ m.to_doc.id = m.mongo_id
    ∧ k.mongo_id = Metadata.id_from k.kind k.key
    ∧ (MetadataRepository.find_by_key f k w).1 =
        (if f.mongoRead then RES.err RErr.mongoRead
         else RES.ok ((alookup k.mongo_id w.docs).map MetadataDoc.meta))
    ∧ alookup m.mongo_id (MetadataRepository.insert noFaults m w).2.1.docs =
        some m.to_doc
    ∧ alookup j (MetadataRepository.insert f m w).2.1.docs = alookup j w.docs
    ∧ alookup j (MetadataRepository.update f m w).2.1.docs = alookup j w.docs
    ∧ alookup j (MetadataRepository.delete f k w).2.1.docs = alookup j w.docs := by
  refine ⟨mongo_id_ne_of_kind_ne m m' hkind, rfl, rfl, ?_, 
    insert_stores_noFaults m w hnew,
    insert_docs_frame f m w _ j hj rfl,
    update_docs_frame f m w _ j hj rfl,
    delete_docs_frame f k w _ j hjk rfl⟩
  by_cases hf : f.mongoRead <;>
    simp [MetadataRepository.find_by_key, hf]

/-- C9 witness: concrete instances — `genre:sci-fi` vs `source:sci-fi`
never collide, and the frame/addressing facts at a fresh world. -/
theorem c9_witness :
    (Metadata.Genre "sci-fi" "sf").mongo_id ≠
      (Metadata.Source "sci-fi" "s").mongo_id
    ∧ alookup "genre:sci-fi"
        (MetadataRepository.insert noFaults (Metadata.Genre "sci-fi" "sf")
          emptyMWorld).2.1.docs = some (Metadata.Genre "sci-fi" "sf").to_doc :=
  ⟨((c9_mongo_id_addressing (Metadata.Genre "sci-fi" "sf")
      (Metadata.Source "sci-fi" "s") (MetadataKey.Source "google_books")
      noFaults emptyMWorld "other" (by decide) rfl (by decide) (by decide))).1,
   ((c9_mongo_id_addressing (Metadata.Genre "sci-fi" "sf")
      (Metadata.Source "sci-fi" "s") (MetadataKey.Source "google_books")
      noFaults emptyMWorld "other" (by decide) rfl (by decide) (by decide))).2.2.2.2.1⟩
